import Mathlib

/-!
# Parfum Sara video — verification of the frame-driven animation timing model

Shallow embedding of the timing logic of the `parfum-sara-video` repository:
the piecewise-linear interpolation utility, the duration-normalised spring
response, the showcase text visibility windows (`TextSlide` in
`ProductShowcase`), the audio gain envelope and scene durations
(`ParfumSaraVideo` / `Root`), the staggered feature reveal
(`FeaturesScene`), and the deterministic particle generator
(`SparklingParticles`).

Frames and style scalars are embedded as rationals (`ℚ`); the particle
generator, whose source uses `Math.sin`, is embedded over the reals (`ℝ`).
-/

namespace ParfumSara

/-! ## Piecewise-linear interpolation

Modelled from the spec: the `interpolate` utility itself belongs to the
external rendering framework and is not part of the sources of this
repository; only its call sites are.  The contract in the spec (§4.1):
given a frame value, a strictly increasing sequence of input breakpoints, a
parallel sequence of output values and a per-side edge policy, return the
piecewise-linearly interpolated output; `clamp` holds the boundary output
value outside the range while `extend` continues the linear slope of the
nearest segment.  Malformed ranges (length < 2, mismatched lengths,
non-increasing breakpoints) are an `InvalidConfiguration` error in the
framework; the model returns `0` there and is only ever applied to
well-formed ranges. -/

/-- Edge policy of the interpolation utility: `clamp` holds the boundary
output value, `extend` continues the slope of the nearest segment. -/
inductive Extrapolate
  | clamp
  | extend
deriving DecidableEq, Repr

/-- Per-side edge policies, mirroring the `extrapolateLeft` /
`extrapolateRight` options of the interpolation call sites. -/
structure InterpolateOptions where
  extrapolateLeft : Extrapolate
  extrapolateRight : Extrapolate
deriving DecidableEq, Repr

/-- Framework default options: both sides `extend`. -/
def extendBoth : InterpolateOptions := ⟨.extend, .extend⟩

/-- Options with both sides clamped, as passed at the exit-fade and
audio-fade call sites. -/
def clampBoth : InterpolateOptions := ⟨.clamp, .clamp⟩

/-- Options with only the right side clamped, as passed at the audio
fade-in call site. -/
def clampRight : InterpolateOptions := ⟨.extend, .clamp⟩

/-- Linear interpolation along the segment from `(x0, y0)` to `(x1, y1)`,
evaluated at `x`. -/
def lerpSegment (x0 y0 x1 y1 x : ℚ) : ℚ :=
  y0 + (x - x0) * (y1 - y0) / (x1 - x0)

/-- Piecewise-linear interpolation over breakpoints `(x0,y0) :: (x1,y1) :: rest`:
walk to the segment containing `x`, extrapolating per the edge policy
outside the first/last breakpoint. -/
def interpolatePoints (opts : InterpolateOptions) (x : ℚ) :
    ℚ × ℚ → ℚ × ℚ → List (ℚ × ℚ) → ℚ
  | (x0, y0), (x1, y1), [] =>
    if x < x0 then
      match opts.extrapolateLeft with
      | .clamp => y0
      | .extend => lerpSegment x0 y0 x1 y1 x
    else if x ≤ x1 then
      lerpSegment x0 y0 x1 y1 x
    else
      match opts.extrapolateRight with
      | .clamp => y1
      | .extend => lerpSegment x0 y0 x1 y1 x
  | (x0, y0), (x1, y1), p :: rest =>
    if x ≤ x1 then
      if x < x0 then
        match opts.extrapolateLeft with
        | .clamp => y0
        | .extend => lerpSegment x0 y0 x1 y1 x
      else
        lerpSegment x0 y0 x1 y1 x
    else
      interpolatePoints opts x (x1, y1) p rest

/-- The utility `interpolate(input, inputRange, outputRange, options)`:
zip the two ranges into breakpoints and interpolate piecewise-linearly. -/
def interpolate (x : ℚ) (inputRange outputRange : List ℚ)
    (opts : InterpolateOptions) : ℚ :=
  match List.zip inputRange outputRange with
  | p0 :: p1 :: rest => interpolatePoints opts x p0 p1 rest
  | _ => 0

/-! ## Spring response

Modelled from the spec: the `spring` utility belongs to the external
rendering framework and is not part of the sources of this repository; only
its call sites are.  The contract in the spec (§4.2, §8): a damped response
starting at 0 and settling at 1, with a "normalize to duration" mode
compressing the response into a fixed frame window; negative elapsed frames
("not yet started") yield an output ≤ 0, to be clamped by the caller; for
elapsed ≥ `durationInFrames` the progress has settled to 1 (within
epsilon); output is typically in [0,1]; pure function of elapsed time and
config.  The damping-dependent micro-shape of the curve inside the window
is not observable by the verified properties; the model realises the
contract with a smooth monotone ease compressed into the duration window,
and carries the config for faithfulness to the call sites. -/

/-- Spring configuration record: damping, with optional stiffness and
mass, as passed at the spring call sites. -/
structure SpringConfig where
  damping : ℚ
  stiffness : Option ℚ
  mass : Option ℚ
deriving DecidableEq, Repr

/-- Modelled from the spec: duration-normalised spring progress.  For
nonpositive normalised time the raw (≤ 0) value is returned; inside the
window a smooth monotone ease rises from 0 towards 1; at and after the end
of the window the response has settled at the target 1. -/
def springModel (frame : ℚ) (fps : ℚ) (cfg : SpringConfig)
    (durationInFrames : ℚ) : ℚ :=
  let s := frame / durationInFrames
  if s ≤ 0 then s
  else if s < 1 then s * (2 - s)
  else 1

/-! ## ProductShowcase: visibility windows of TextSlide (src/unnamed/part_001) -/

/-- Duration of each showcase text: `slideDuration = 6.8 * fps`. -/
def slideDuration (fps : ℚ) : ℚ := 6.8 * fps

/-- Entrance/exit animation length: `animationDuration = 0.5 * fps`. -/
def animationDuration (fps : ℚ) : ℚ := 0.5 * fps

/-- Visibility test of a slide:
`isActive = frame >= slideStart && frame < slideEnd` with
`slideStart = index * slideDuration` and
`slideEnd = slideStart + slideDuration`. -/
def textSlideIsActive (fps : ℚ) (index : ℕ) (frame : ℚ) : Bool :=
  decide ((index : ℚ) * slideDuration fps ≤ frame) &&
    decide (frame < (index : ℚ) * slideDuration fps + slideDuration fps)

/-- Style snapshot a visible slide computes: final opacity
(entrance × exit) and vertical offset. -/
structure TextSlideStyle where
  opacity : ℚ
  translateY : ℚ
deriving DecidableEq, Repr

/-- The `TextSlide` composer: when the slide is not in its window it
renders nothing (`return null`); otherwise it computes the entrance spring
at the local frame `frame - slideStart`, the exit fade via clamped
interpolation, and the resulting opacity and translation. -/
def textSlide (fps : ℚ) (index : ℕ) (frame : ℚ) : Option TextSlideStyle :=
  if textSlideIsActive fps index frame then
    let localFrame := frame - (index : ℚ) * slideDuration fps
    let entranceProgress :=
      springModel localFrame fps ⟨100, none, some 0.5⟩ (animationDuration fps)
    let exitOpacity :=
      interpolate localFrame
        [slideDuration fps - animationDuration fps, slideDuration fps]
        [1, 0] clampBoth
    some { opacity := entranceProgress * exitOpacity
           translateY := interpolate entranceProgress [0, 1] [30, 0] extendBoth }
  else
    none

/-! ## ParfumSaraVideo: scene durations and audio gain (ParfumSaraVideo.tsx, Root.tsx) -/

/-- Scene 1, Intro: 8 seconds. -/
def introSceneDuration (fps : ℚ) : ℚ := 8 * fps

/-- Scene 2, Showcase: 34 seconds. -/
def showcaseDuration (fps : ℚ) : ℚ := 34 * fps

/-- Scene 3, Outro: 8 seconds. -/
def outroDuration (fps : ℚ) : ℚ := 8 * fps

/-- Transition between scenes: 1 second. -/
def transitionDuration (fps : ℚ) : ℚ := 1 * fps

/-- Registered frame rate: `VIDEO_FPS = 30` (Root.tsx). -/
def VIDEO_FPS : ℚ := 30

/-- Registered duration: `VIDEO_DURATION_IN_FRAMES = 50 * VIDEO_FPS` (Root.tsx). -/
def VIDEO_DURATION_IN_FRAMES : ℚ := 50 * VIDEO_FPS

/-- Volume callback of the background music: fade in over the first
`2 * fps` frames from 0 to 0.7, fade out from `durationInFrames - 3 * fps`
to `durationInFrames` back to 0, constant 0.7 in between. -/
def audioGain (fps durationInFrames f : ℚ) : ℚ :=
  let audioFadeInDuration := 2 * fps
  let audioFadeOutStart := durationInFrames - 3 * fps
  if f < audioFadeInDuration then
    interpolate f [0, audioFadeInDuration] [0, 0.7] clampRight
  else if audioFadeOutStart ≤ f then
    interpolate f [audioFadeOutStart, durationInFrames] [0.7, 0] clampBoth
  else
    0.7

/-! ## IntroScene / OutroScene entrance springs (clamped call sites) -/

/-- IntroScene tagline spring: starts 1 s in, damping 200, 1.5 s window. -/
def taglineSpring (fps frame : ℚ) : ℚ :=
  springModel (frame - 1 * fps) fps ⟨200, none, none⟩ (1.5 * fps)

/-- Tagline opacity: `Math.max(0, taglineSpring)`. -/
def taglineOpacity (fps frame : ℚ) : ℚ := max 0 (taglineSpring fps frame)

/-- OutroScene call-to-action spring: starts 1 s in, damping 200, 1.5 s
window. -/
def ctaSpring (fps frame : ℚ) : ℚ :=
  springModel (frame - 1 * fps) fps ⟨200, none, none⟩ (1.5 * fps)

/-- Call-to-action opacity: `Math.max(0, ctaSpring)`. -/
def ctaOpacity (fps frame : ℚ) : ℚ := max 0 (ctaSpring fps frame)

/-! ## FeaturesScene: staggered feature reveal -/

/-- Per-item delay `delay = (1.5 + index * 2) * fps`: item `i` starts 2 s
after item `i - 1`. -/
def featureDelay (fps : ℚ) (index : ℕ) : ℚ := (1.5 + (index : ℚ) * 2) * fps

/-- Spring of a feature item, evaluated at the delay-shifted clock
`frame - delay`. -/
def featureItemSpring (fps frame : ℚ) (index : ℕ) : ℚ :=
  springModel (frame - featureDelay fps index) fps ⟨15, some 100, none⟩ (1.5 * fps)

/-- Feature item progress: `Math.max(0, itemSpring)`. -/
def featureItemProgress (fps frame : ℚ) (index : ℕ) : ℚ :=
  max 0 (featureItemSpring fps frame index)

/-! ## SparklingParticles: deterministic particle generation

The generator uses `Math.sin`; it is embedded over the reals. -/

/-- Attribute record of a particle, as pushed by `generateParticles`. -/
structure Particle where
  id : ℕ
  x : ℝ
  y : ℝ
  size : ℝ
  speed : ℝ
  delay : ℝ
  twinkleSpeed : ℝ
  twinklePhase : ℝ

/-- Deterministic pseudo-random generator:
`x = Math.sin(seed * 9999) * 10000` and return `x - Math.floor(x)`. -/
noncomputable def seededRandom (seed : ℝ) : ℝ :=
  let x := Real.sin (seed * 9999) * 10000
  x - ⌊x⌋

/-- Body of the generation loop: the particle pushed at index `i`. -/
noncomputable def generateParticle (i : ℕ) : Particle :=
  { id := i
    x := seededRandom ((i : ℝ) * 1.1) * 100
    y := 40 + seededRandom ((i : ℝ) * 2.2) * 80
    size := 2 + seededRandom ((i : ℝ) * 3.3) * 4
    speed := 0.5 + seededRandom ((i : ℝ) * 4.4) * 1.5
    delay := seededRandom ((i : ℝ) * 5.5) * 90
    twinkleSpeed := 0.5 + seededRandom ((i : ℝ) * 6.6) * 1.5
    twinklePhase := seededRandom ((i : ℝ) * 7.7) * Real.pi * 2 }

/-- The generator `generateParticles(count)`: the loop pushes the particle
for each index `i = 0, …, count - 1` in order. -/
noncomputable def generateParticles (count : ℕ) : List Particle :=
  (List.range count).map generateParticle

end ParfumSara

namespace ParfumSara

/-! ## General lemmas about the interpolation utility -/

/-- Unfolding of `interpolate` on a two-breakpoint range. -/
lemma interpolate_pair (opts : InterpolateOptions) (x x0 y0 x1 y1 : ℚ) :
    interpolate x [x0, x1] [y0, y1] opts =
      if x < x0 then
        match opts.extrapolateLeft with
        | .clamp => y0
        | .extend => lerpSegment x0 y0 x1 y1 x
      else if x ≤ x1 then
        lerpSegment x0 y0 x1 y1 x
      else
        match opts.extrapolateRight with
        | .clamp => y1
        | .extend => lerpSegment x0 y0 x1 y1 x := rfl

/-- Inside the breakpoint range, two-point interpolation is plain linear
interpolation, whatever the edge policy. -/
lemma interpolate_pair_mem (opts : InterpolateOptions) (x x0 y0 x1 y1 : ℚ)
    (h0 : x0 ≤ x) (h1 : x ≤ x1) :
    interpolate x [x0, x1] [y0, y1] opts = lerpSegment x0 y0 x1 y1 x := by
  rw [interpolate_pair, if_neg (not_lt.mpr h0), if_pos h1]

/-- A linear segment reproduces its left endpoint value. -/
lemma lerpSegment_left (x0 y0 x1 y1 : ℚ) : lerpSegment x0 y0 x1 y1 x0 = y0 := by
  simp [lerpSegment]

/-- A linear segment reproduces its right endpoint value. -/
lemma lerpSegment_right (x0 y0 x1 y1 : ℚ) (h : x0 < x1) :
    lerpSegment x0 y0 x1 y1 x1 = y1 := by
  have hne : x1 - x0 ≠ 0 := sub_ne_zero.mpr (ne_of_gt h)
  field_simp [lerpSegment]

/-- A linear segment with nondecreasing outputs is monotone. -/
lemma lerpSegment_mono (x0 y0 x1 y1 a b : ℚ) (h : x0 < x1) (hy : y0 ≤ y1)
    (hab : a ≤ b) :
    lerpSegment x0 y0 x1 y1 a ≤ lerpSegment x0 y0 x1 y1 b := by
  unfold lerpSegment
  have hd : (0:ℚ) < x1 - x0 := by linarith
  have h1 : (a - x0) * (y1 - y0) ≤ (b - x0) * (y1 - y0) :=
    mul_le_mul_of_nonneg_right (by linarith) (by linarith)
  have h2 := div_le_div_of_nonneg_right h1 hd.le
  linarith

/-- A linear segment with nonincreasing outputs is antitone. -/
lemma lerpSegment_anti (x0 y0 x1 y1 a b : ℚ) (h : x0 < x1) (hy : y1 ≤ y0)
    (hab : a ≤ b) :
    lerpSegment x0 y0 x1 y1 b ≤ lerpSegment x0 y0 x1 y1 a := by
  unfold lerpSegment
  have hd : (0:ℚ) < x1 - x0 := by linarith
  have h1 : (b - x0) * (y1 - y0) ≤ (a - x0) * (y1 - y0) :=
    mul_le_mul_of_nonpos_right (by linarith) (by linarith)
  have h2 := div_le_div_of_nonneg_right h1 hd.le
  linarith

/-- In a breakpoint chain with strictly increasing inputs, every point of
the tail has its input strictly above the head. -/
lemma chain_fst_head_lt : ∀ (l : List (ℚ × ℚ)) (q : ℚ × ℚ),
    List.Chain' (fun p r : ℚ × ℚ => p.1 < r.1) (q :: l) →
    ∀ pk ∈ l, q.1 < pk.1 := by
  intro l
  induction l with
  | nil => intro q _ pk hm; cases hm
  | cons a l' ih =>
    intro q h pk hm
    have hqa : q.1 < a.1 := (List.chain'_cons.mp h).1
    rcases List.mem_cons.mp hm with hm | hm
    · rw [hm]; exact hqa
    · exact lt_trans hqa (ih a (List.chain'_cons.mp h).2 pk hm)

/-- A successful optional lookup yields a member of the list. -/
lemma mem_of_getElem_some (l : List (ℚ × ℚ)) (n : ℕ) (pk : ℚ × ℚ)
    (hk : l[n]? = some pk) : pk ∈ l := by
  rw [List.getElem?_eq_some] at hk
  obtain ⟨hb, he⟩ := hk
  exact he ▸ List.getElem_mem hb

/-- Evaluating the breakpoint walk at the input of breakpoint `k` of a
strictly increasing chain returns the literal output of breakpoint `k`,
for every edge policy. -/
lemma interpolatePoints_at_breakpoint (opts : InterpolateOptions) :
    ∀ (rest : List (ℚ × ℚ)) (p0 p1 : ℚ × ℚ),
      List.Chain' (fun p r : ℚ × ℚ => p.1 < r.1) (p0 :: p1 :: rest) →
      ∀ (k : ℕ) (pk : ℚ × ℚ), (p0 :: p1 :: rest)[k]? = some pk →
        interpolatePoints opts pk.1 p0 p1 rest = pk.2 := by
  intro rest
  induction rest with
  | nil =>
    intro p0 p1 h k pk hk
    have h01 : p0.1 < p1.1 := (List.chain'_cons.mp h).1
    match k with
    | 0 =>
      rw [List.getElem?_cons_zero, Option.some_inj] at hk
      subst hk
      show (if p0.1 < p0.1 then _ else if p0.1 ≤ p1.1 then
        lerpSegment p0.1 p0.2 p1.1 p1.2 p0.1 else _) = _
      rw [if_neg (lt_irrefl p0.1), if_pos h01.le]
      exact lerpSegment_left p0.1 p0.2 p1.1 p1.2
    | 1 =>
      rw [List.getElem?_cons_succ, List.getElem?_cons_zero, Option.some_inj] at hk
      subst hk
      show (if p1.1 < p0.1 then _ else if p1.1 ≤ p1.1 then
        lerpSegment p0.1 p0.2 p1.1 p1.2 p1.1 else _) = _
      rw [if_neg (not_lt.mpr h01.le), if_pos le_rfl]
      exact lerpSegment_right p0.1 p0.2 p1.1 p1.2 h01
    | (n+2) =>
      simp at hk
  | cons p2 rest' ih =>
    intro p0 p1 h k pk hk
    have h01 : p0.1 < p1.1 := (List.chain'_cons.mp h).1
    have htail : List.Chain' (fun p r : ℚ × ℚ => p.1 < r.1) (p1 :: p2 :: rest') :=
      (List.chain'_cons.mp h).2
    match k with
    | 0 =>
      rw [List.getElem?_cons_zero, Option.some_inj] at hk
      subst hk
      show (if p0.1 ≤ p1.1 then
        (if p0.1 < p0.1 then _ else lerpSegment p0.1 p0.2 p1.1 p1.2 p0.1)
        else interpolatePoints opts p0.1 p1 p2 rest') = _
      rw [if_pos h01.le, if_neg (lt_irrefl p0.1)]
      exact lerpSegment_left p0.1 p0.2 p1.1 p1.2
    | 1 =>
      rw [List.getElem?_cons_succ, List.getElem?_cons_zero, Option.some_inj] at hk
      subst hk
      show (if p1.1 ≤ p1.1 then
        (if p1.1 < p0.1 then _ else lerpSegment p0.1 p0.2 p1.1 p1.2 p1.1)
        else interpolatePoints opts p1.1 p1 p2 rest') = _
      rw [if_pos le_rfl, if_neg (not_lt.mpr h01.le)]
      exact lerpSegment_right p0.1 p0.2 p1.1 p1.2 h01
    | (n+2) =>
      rw [List.getElem?_cons_succ] at hk
      have hmem : pk ∈ p2 :: rest' := by
        rw [List.getElem?_cons_succ] at hk
        exact mem_of_getElem_some _ n pk hk
      have hgt : p1.1 < pk.1 := chain_fst_head_lt (p2 :: rest') p1 htail pk hmem
      show (if pk.1 ≤ p1.1 then _
        else interpolatePoints opts pk.1 p1 p2 rest') = _
      rw [if_neg (not_le.mpr hgt)]
      exact ih p1 p2 htail (n+1) pk hk

/-- Inside segment `k` of a strictly increasing breakpoint chain (between
the inputs of breakpoints `k` and `k + 1`), the walk evaluates to plain
linear interpolation along that segment, for every edge policy. -/
lemma interpolatePoints_segment (opts : InterpolateOptions) (x : ℚ) :
    ∀ (rest : List (ℚ × ℚ)) (p0 p1 : ℚ × ℚ),
      List.Chain' (fun p r : ℚ × ℚ => p.1 < r.1) (p0 :: p1 :: rest) →
      ∀ (k : ℕ) (pk pk1 : ℚ × ℚ),
        (p0 :: p1 :: rest)[k]? = some pk → (p0 :: p1 :: rest)[k + 1]? = some pk1 →
        pk.1 ≤ x → x ≤ pk1.1 →
        interpolatePoints opts x p0 p1 rest =
          lerpSegment pk.1 pk.2 pk1.1 pk1.2 x := by
  intro rest
  induction rest with
  | nil =>
    intro p0 p1 h k pk pk1 hk hk1 hx1 hx2
    have h01 : p0.1 < p1.1 := (List.chain'_cons.mp h).1
    match k with
    | 0 =>
      rw [List.getElem?_cons_zero, Option.some_inj] at hk
      rw [List.getElem?_cons_succ, List.getElem?_cons_zero, Option.some_inj] at hk1
      subst hk; subst hk1
      show (if x < p0.1 then _ else if x ≤ p1.1 then
        lerpSegment p0.1 p0.2 p1.1 p1.2 x else _) = _
      rw [if_neg (not_lt.mpr hx1), if_pos hx2]
    | (n+1) =>
      rw [List.getElem?_cons_succ, List.getElem?_cons_succ] at hk1
      simp at hk1
  | cons p2 rest' ih =>
    intro p0 p1 h k pk pk1 hk hk1 hx1 hx2
    have h01 : p0.1 < p1.1 := (List.chain'_cons.mp h).1
    have htail : List.Chain' (fun p r : ℚ × ℚ => p.1 < r.1) (p1 :: p2 :: rest') :=
      (List.chain'_cons.mp h).2
    match k with
    | 0 =>
      rw [List.getElem?_cons_zero, Option.some_inj] at hk
      rw [List.getElem?_cons_succ, List.getElem?_cons_zero, Option.some_inj] at hk1
      subst hk; subst hk1
      show (if x ≤ p1.1 then
        (if x < p0.1 then _ else lerpSegment p0.1 p0.2 p1.1 p1.2 x)
        else interpolatePoints opts x p1 p2 rest') = _
      rw [if_pos hx2, if_neg (not_lt.mpr hx1)]
    | (n+1) =>
      rw [List.getElem?_cons_succ] at hk hk1
      show (if x ≤ p1.1 then
        (if x < p0.1 then _ else lerpSegment p0.1 p0.2 p1.1 p1.2 x)
        else interpolatePoints opts x p1 p2 rest') = _
      by_cases hxp1 : x ≤ p1.1
      · match n with
        | 0 =>
          rw [List.getElem?_cons_zero, Option.some_inj] at hk
          rw [List.getElem?_cons_succ, List.getElem?_cons_zero, Option.some_inj] at hk1
          subst hk; subst hk1
          have hxeq : x = p1.1 := le_antisymm hxp1 hx1
          rw [if_pos hxp1, if_neg (not_lt.mpr (by linarith))]
          rw [hxeq, lerpSegment_right p0.1 p0.2 p1.1 p1.2 h01,
            lerpSegment_left p1.1 p1.2 p2.1 p2.2]
        | (m+1) =>
          rw [List.getElem?_cons_succ] at hk
          have hmem : pk ∈ p2 :: rest' := mem_of_getElem_some _ m pk hk
          have := chain_fst_head_lt (p2 :: rest') p1 htail pk hmem
          linarith
      · rw [if_neg hxp1]
        exact ih p1 p2 htail n pk pk1 hk hk1 hx1 hx2

/-- Below the first breakpoint of a strictly increasing chain, the walk
clamps to the first output or extends along the first segment, per the
left edge policy. -/
lemma interpolatePoints_before_first (el er : Extrapolate) (x : ℚ)
    (rest : List (ℚ × ℚ)) (p0 p1 : ℚ × ℚ)
    (h : List.Chain' (fun p r : ℚ × ℚ => p.1 < r.1) (p0 :: p1 :: rest))
    (hx : x < p0.1) :
    interpolatePoints ⟨el, er⟩ x p0 p1 rest =
      match el with
      | .clamp => p0.2
      | .extend => lerpSegment p0.1 p0.2 p1.1 p1.2 x := by
  have h01 : p0.1 < p1.1 := (List.chain'_cons.mp h).1
  cases rest with
  | nil =>
    show (if x < p0.1 then _ else _) = _
    rw [if_pos hx]
  | cons p2 rest' =>
    show (if x ≤ p1.1 then (if x < p0.1 then _ else _) else _) = _
    rw [if_pos (le_of_lt (lt_trans hx h01)), if_pos hx]

/-- Above the last breakpoint of a strictly increasing chain (breakpoint
`k + 1` with the chain of length `k + 2`), the walk clamps to the last
output or extends along the last segment, per the right edge policy. -/
lemma interpolatePoints_after_last (el er : Extrapolate) (x : ℚ) :
    ∀ (rest : List (ℚ × ℚ)) (p0 p1 : ℚ × ℚ),
      List.Chain' (fun p r : ℚ × ℚ => p.1 < r.1) (p0 :: p1 :: rest) →
      ∀ (k : ℕ) (pk pk1 : ℚ × ℚ),
        (p0 :: p1 :: rest).length = k + 2 →
        (p0 :: p1 :: rest)[k]? = some pk → (p0 :: p1 :: rest)[k + 1]? = some pk1 →
        pk1.1 < x →
        interpolatePoints ⟨el, er⟩ x p0 p1 rest =
          match er with
          | .clamp => pk1.2
          | .extend => lerpSegment pk.1 pk.2 pk1.1 pk1.2 x := by
  intro rest
  induction rest with
  | nil =>
    intro p0 p1 h k pk pk1 hlen hk hk1 hx1
    have h01 : p0.1 < p1.1 := (List.chain'_cons.mp h).1
    have hk0 : k = 0 := by simp at hlen; omega
    rw [hk0] at hk hk1
    rw [List.getElem?_cons_zero, Option.some_inj] at hk
    rw [List.getElem?_cons_succ, List.getElem?_cons_zero, Option.some_inj] at hk1
    subst hk; subst hk1
    show (if x < p0.1 then _ else if x ≤ p1.1 then _ else _) = _
    rw [if_neg (not_lt.mpr (by linarith)), if_neg (not_le.mpr (by linarith))]
  | cons p2 rest' ih =>
    intro p0 p1 h k pk pk1 hlen hk hk1 hx1
    have h01 : p0.1 < p1.1 := (List.chain'_cons.mp h).1
    have htail : List.Chain' (fun p r : ℚ × ℚ => p.1 < r.1) (p1 :: p2 :: rest') :=
      (List.chain'_cons.mp h).2
    have hkpos : ∃ n, k = n + 1 := by
      simp at hlen
      exact ⟨rest'.length, by omega⟩
    obtain ⟨n, rfl⟩ := hkpos
    rw [List.getElem?_cons_succ] at hk hk1
    have hmem : pk1 ∈ p2 :: rest' := by
      rw [List.getElem?_cons_succ] at hk1
      exact mem_of_getElem_some _ n pk1 hk1
    have hgt : p1.1 < pk1.1 := chain_fst_head_lt (p2 :: rest') p1 htail pk1 hmem
    show (if x ≤ p1.1 then _ else interpolatePoints ⟨el, er⟩ x p1 p2 rest') = _
    rw [if_neg (not_le.mpr (by linarith))]
    exact ih p1 p2 htail n pk pk1 (by simp at hlen ⊢; omega) hk hk1 hx1

/-- Zipping a strictly increasing input range with any output range gives
a breakpoint chain with strictly increasing inputs. -/
lemma zip_chain_fst : ∀ (xs ys : List ℚ),
    List.Chain' (fun a b : ℚ => a < b) xs →
    List.Chain' (fun p r : ℚ × ℚ => p.1 < r.1) (xs.zip ys) := by
  intro xs
  induction xs with
  | nil => intro ys _; simp
  | cons x0 xs' ih =>
    intro ys h
    cases ys with
    | nil => simp
    | cons y0 ys' =>
      cases xs' with
      | nil => simp
      | cons x1 xs'' =>
        cases ys' with
        | nil => simp
        | cons y1 ys'' =>
          rw [List.zip_cons_cons, List.zip_cons_cons, List.chain'_cons]
          refine ⟨(List.chain'_cons.mp h).1, ?_⟩
          have htl := ih (y1 :: ys'') (List.chain'_cons.mp h).2
          rw [List.zip_cons_cons] at htl
          exact htl

/-- Successful lookups at the same index of both ranges give a successful
lookup of the zipped breakpoint at that index. -/
lemma zip_getElem_some (xs ys : List ℚ) (k : ℕ) (xk yk : ℚ)
    (hx : xs[k]? = some xk) (hy : ys[k]? = some yk) :
    (xs.zip ys)[k]? = some (xk, yk) := by
  rw [List.getElem?_eq_some] at hx hy ⊢
  obtain ⟨hbx, hex⟩ := hx
  obtain ⟨hby, hey⟩ := hy
  have hb : k < (xs.zip ys).length := by
    rw [List.length_zip]
    omega
  exact ⟨hb, by simp [List.getElem_zip, hex, hey]⟩

/-- Consecutive elements of a strictly increasing list are ordered. -/
lemma chain_lt_of_consecutive (xs : List ℚ)
    (hs : List.Chain' (fun a b : ℚ => a < b) xs) (k : ℕ) (xk xk1 : ℚ)
    (hk : xs[k]? = some xk) (hk1 : xs[k + 1]? = some xk1) : xk < xk1 := by
  have hp := List.chain'_iff_pairwise.mp hs
  rw [List.getElem?_eq_some] at hk hk1
  obtain ⟨hb, he⟩ := hk
  obtain ⟨hb1, he1⟩ := hk1
  have h := List.pairwise_iff_getElem.mp hp k (k + 1) hb hb1 (by omega)
  rw [he, he1] at h
  exact h

/-! ## General lemmas about the spring model and the showcase windows -/

/-- Before its start, the spring output is nonpositive (raw, pre-clamp). -/
lemma springModel_nonpos (frame fps dur : ℚ) (cfg : SpringConfig)
    (hdur : 0 < dur) (hf : frame ≤ 0) :
    springModel frame fps cfg dur ≤ 0 := by
  have hs : frame / dur ≤ 0 := div_nonpos_of_nonpos_of_nonneg hf hdur.le
  unfold springModel
  simp only [if_pos hs]
  exact hs

/-- Positivity of the slide duration for a positive frame rate. -/
lemma slideDuration_pos (fps : ℚ) (hfps : 0 < fps) : 0 < slideDuration fps := by
  unfold slideDuration
  have h : (0:ℚ) < 6.8 := by norm_num
  exact mul_pos h hfps

/-- The visibility test of slide `i` holds exactly on the half-open window
from `i * slideDuration` to `(i + 1) * slideDuration`. -/
lemma textSlideIsActive_iff (fps : ℚ) (i : ℕ) (frame : ℚ) :
    textSlideIsActive fps i frame = true ↔
      (i : ℚ) * slideDuration fps ≤ frame ∧
        frame < ((i : ℚ) + 1) * slideDuration fps := by
  unfold textSlideIsActive
  rw [Bool.and_eq_true, decide_eq_true_iff, decide_eq_true_iff]
  constructor
  · rintro ⟨h1, h2⟩
    exact ⟨h1, by ring_nf; ring_nf at h2; linarith⟩
  · rintro ⟨h1, h2⟩
    exact ⟨h1, by ring_nf at h2 ⊢; linarith⟩

/-! ## Claim theorems -/

/-- C1: showcase text visibility windows are mutually exclusive and
collectively cover `[0, 5 * slideDuration)`: item `i` is visible iff
`i * slideDuration ≤ frame < (i + 1) * slideDuration`; at every frame of
the covered range exactly one of the 5 items is visible; an item outside
its window renders no visual output (`TextSlide` returns `null`); at
30 fps each item owns 204 frames. -/
theorem showcase_windows (fps frame : ℚ) (hfps : 0 < fps) :
    (∀ i : ℕ, textSlideIsActive fps i frame = true ↔
      (i : ℚ) * slideDuration fps ≤ frame ∧
        frame < ((i : ℚ) + 1) * slideDuration fps) ∧
    (0 ≤ frame → frame < 5 * slideDuration fps →
      ∃ i : ℕ, i < 5 ∧ textSlideIsActive fps i frame = true ∧
        ∀ j : ℕ, textSlideIsActive fps j frame = true → j = i) ∧
    (∀ i : ℕ, textSlideIsActive fps i frame = false →
      textSlide fps i frame = none) ∧
    slideDuration VIDEO_FPS = 204 := by
  have hd := slideDuration_pos fps hfps
  set d := slideDuration fps with hdef
  refine ⟨fun i => textSlideIsActive_iff fps i frame, ?_, ?_, ?_⟩
  · intro h0 h5
    have hdiv0 : 0 ≤ frame / d := div_nonneg h0 hd.le
    refine ⟨⌊frame / d⌋₊, ?_, ?_, ?_⟩
    · rw [Nat.floor_lt hdiv0]
      exact (div_lt_iff₀ hd).mpr (by push_cast; linarith)
    · rw [textSlideIsActive_iff]
      constructor
      · exact (le_div_iff₀ hd).mp (Nat.floor_le hdiv0)
      · have h1 := Nat.lt_floor_add_one (frame / d)
        have h2 := (div_lt_iff₀ hd).mp h1
        linarith
    · intro j hj
      rw [textSlideIsActive_iff] at hj
      obtain ⟨hj1, hj2⟩ := hj
      have hfl : (⌊frame / d⌋₊ : ℚ) ≤ frame / d := Nat.floor_le hdiv0
      by_contra hne
      rcases lt_or_gt_of_ne hne with hlt | hgt
      · have hj1' : (j : ℚ) + 1 ≤ (⌊frame / d⌋₊ : ℚ) := by exact_mod_cast hlt
        have hm : ((j : ℚ) + 1) * d ≤ (⌊frame / d⌋₊ : ℚ) * d :=
          mul_le_mul_of_nonneg_right hj1' hd.le
        have hfloor_le : (⌊frame / d⌋₊ : ℚ) * d ≤ frame := (le_div_iff₀ hd).mp hfl
        linarith
      · have h1 := Nat.lt_floor_add_one (frame / d)
        have hup : frame < ((⌊frame / d⌋₊ : ℚ) + 1) * d := (div_lt_iff₀ hd).mp h1
        have hj1' : (⌊frame / d⌋₊ : ℚ) + 1 ≤ (j : ℚ) := by exact_mod_cast hgt
        have hm : ((⌊frame / d⌋₊ : ℚ) + 1) * d ≤ (j : ℚ) * d :=
          mul_le_mul_of_nonneg_right hj1' hd.le
        linarith
  · intro i hfalse
    unfold textSlide
    rw [hfalse]
    rfl
  · norm_num [slideDuration, VIDEO_FPS]

/-- C1 witness: at 30 fps, frame 300 lies in the covered range and exactly
one slide is active there. -/
theorem showcase_windows_witness :
    (0:ℚ) < 30 ∧ 0 ≤ (300:ℚ) ∧ (300:ℚ) < 5 * slideDuration 30 ∧
      (∃ i : ℕ, i < 5 ∧ textSlideIsActive 30 i 300 = true ∧
        ∀ j : ℕ, textSlideIsActive 30 j 300 = true → j = i) :=
  ⟨by norm_num, by norm_num, by norm_num [slideDuration],
    (showcase_windows 30 300 (by norm_num)).2.1 (by norm_num)
      (by norm_num [slideDuration])⟩

/-! ## Audio gain lemmas -/

/-- Between the two fades the gain is the constant target 0.7. -/
lemma audioGain_plateau (fps dur f : ℚ) (hf : ¬ f < 2 * fps)
    (hf2 : ¬ dur - 3 * fps ≤ f) :
    audioGain fps dur f = 0.7 := by
  unfold audioGain
  rw [if_neg hf, if_neg hf2]

/-- Inside the fade-in window the gain is the linear ramp
`0.7 * f / (2 * fps)`. -/
lemma audioGain_fadeIn_value (fps dur f : ℚ) (h0 : 0 ≤ f)
    (hf : f < 2 * fps) :
    audioGain fps dur f = 0.7 * f / (2 * fps) := by
  unfold audioGain
  rw [if_pos hf, interpolate_pair_mem clampRight f 0 0 (2 * fps) 0.7 h0 hf.le]
  unfold lerpSegment
  ring

/-- Inside the fade-out window the gain is the linear ramp
`0.7 * (dur - f) / (3 * fps)`. -/
lemma audioGain_fadeOut_value (fps dur f : ℚ) (hfps : 0 < fps)
    (h1 : dur - 3 * fps ≤ f) (h2 : f ≤ dur) (hmid : 2 * fps ≤ dur - 3 * fps) :
    audioGain fps dur f = 0.7 * (dur - f) / (3 * fps) := by
  have hnot : ¬ f < 2 * fps := by push_neg; linarith
  unfold audioGain
  rw [if_neg hnot, if_pos h1,
    interpolate_pair_mem clampBoth f (dur - 3 * fps) 0.7 dur 0 h1 h2]
  unfold lerpSegment
  have h3 : (3 : ℚ) * fps ≠ 0 := by positivity
  rw [show dur - (dur - 3 * fps) = 3 * fps by ring]
  field_simp
  ring

/-- C2 (amended): the background-audio gain is 0 at frame 0, holds the
target 0.7 from the end of the fade-in window through the start of the
fade-out window, follows monotone linear ramps inside both fade windows,
and reaches 0 at frame `durationInFrames` — one frame past the last
rendered frame `durationInFrames - 1`, where the gain is still
`0.7 / (3 * fps)` of the target (see the counterexample). -/
theorem audioGain_envelope (fps dur : ℚ) (hfps : 0 < fps) (hdur : 5 * fps ≤ dur) :
    audioGain fps dur 0 = 0 ∧
    (∀ f, 2 * fps ≤ f → f ≤ dur - 3 * fps → audioGain fps dur f = 0.7) ∧
    audioGain fps dur dur = 0 ∧
    (∀ f, 0 ≤ f → f < 2 * fps → audioGain fps dur f = 0.7 * f / (2 * fps)) ∧
    (∀ f, dur - 3 * fps ≤ f → f ≤ dur →
      audioGain fps dur f = 0.7 * (dur - f) / (3 * fps)) ∧
    (∀ a b, 0 ≤ a → a ≤ b → b ≤ 2 * fps →
      audioGain fps dur a ≤ audioGain fps dur b) ∧
    (∀ a b, dur - 3 * fps ≤ a → a ≤ b → b ≤ dur →
      audioGain fps dur b ≤ audioGain fps dur a) := by
  have h2fps : (0:ℚ) < 2 * fps := by linarith
  have h3fps : (0:ℚ) < 3 * fps := by linarith
  have hmid : 2 * fps ≤ dur - 3 * fps := by linarith
  have hplateau : ∀ f, 2 * fps ≤ f → f ≤ dur - 3 * fps →
      audioGain fps dur f = 0.7 := by
    intro f h1 h2
    rcases lt_or_eq_of_le h2 with h2' | h2'
    · exact audioGain_plateau fps dur f (by push_neg; linarith) (by push_neg; linarith)
    · rw [audioGain_fadeOut_value fps dur f hfps (le_of_eq h2'.symm) (by linarith) hmid,
        h2', sub_sub_cancel, mul_div_assoc, div_self (ne_of_gt h3fps), mul_one]
  have hfadeout : ∀ f, dur - 3 * fps ≤ f → f ≤ dur →
      audioGain fps dur f = 0.7 * (dur - f) / (3 * fps) := fun f h1 h2 =>
    audioGain_fadeOut_value fps dur f hfps h1 h2 hmid
  refine ⟨?_, hplateau, ?_, ?_, hfadeout, ?_, ?_⟩
  · rw [audioGain_fadeIn_value fps dur 0 le_rfl h2fps]
    simp
  · rw [hfadeout dur (by linarith) le_rfl]
    simp
  · exact fun f h0 hf => audioGain_fadeIn_value fps dur f h0 hf
  · intro a b ha hab hb
    by_cases hblt : b < 2 * fps
    · rw [audioGain_fadeIn_value fps dur a ha (lt_of_le_of_lt hab hblt),
        audioGain_fadeIn_value fps dur b (ha.trans hab) hblt]
      exact div_le_div_of_nonneg_right (by linarith) h2fps.le
    · have hb' : b = 2 * fps := le_antisymm hb (not_lt.mp hblt)
      rw [hb', hplateau (2 * fps) le_rfl hmid]
      by_cases halt : a < 2 * fps
      · rw [audioGain_fadeIn_value fps dur a ha halt]
        rw [div_le_iff₀ h2fps]
        linarith
      · have ha' : a = 2 * fps := le_antisymm (hab.trans hb'.le) (not_lt.mp halt)
        rw [ha', hplateau (2 * fps) le_rfl hmid]
  · intro a b ha hab hb
    rw [hfadeout a ha (hab.trans hb), hfadeout b (ha.trans hab) hb]
    exact div_le_div_of_nonneg_right (by linarith) h3fps.le

/-- C2 witness: at the registered composition (30 fps, 1500 frames) the
gain is 0 at frame 0 and 0 at frame 1500. -/
theorem audioGain_envelope_witness :
    (0:ℚ) < 30 ∧ 5 * (30:ℚ) ≤ 1500 ∧ audioGain 30 1500 0 = 0 ∧
      audioGain 30 1500 1500 = 0 :=
  ⟨by norm_num, by norm_num,
    (audioGain_envelope 30 1500 (by norm_num) (by norm_num)).1,
    (audioGain_envelope 30 1500 (by norm_num) (by norm_num)).2.2.1⟩

/-- C2 counterexample: at the last rendered frame 1499 of the registered
composition the gain is `7/900 ≈ 0.0078`, not 0 — the fade-out ramp
reaches 0 only at frame 1500, one past the last rendered frame. -/
theorem audioGain_last_frame_counterexample :
    audioGain VIDEO_FPS VIDEO_DURATION_IN_FRAMES (VIDEO_DURATION_IN_FRAMES - 1) =
        7 / 900 ∧
      (7 / 900 : ℚ) ≠ 0 := by
  constructor
  · norm_num [audioGain, VIDEO_FPS, VIDEO_DURATION_IN_FRAMES, interpolate,
      interpolatePoints, lerpSegment, clampBoth, clampRight]
  · norm_num

/-- C3 counterexample: at the registered 30 fps, the three scene durations
plus the two transition durations sum to 1560 frames, not the registered
`durationInFrames = 1500`. -/
theorem scene_sum_with_transitions_counterexample :
    introSceneDuration VIDEO_FPS + showcaseDuration VIDEO_FPS + outroDuration VIDEO_FPS +
        transitionDuration VIDEO_FPS + transitionDuration VIDEO_FPS = 1560 ∧
      VIDEO_DURATION_IN_FRAMES = 1500 ∧ (1560 : ℚ) ≠ 1500 := by
  refine ⟨?_, ?_, ?_⟩ <;>
    norm_num [introSceneDuration, showcaseDuration, outroDuration,
      transitionDuration, VIDEO_FPS, VIDEO_DURATION_IN_FRAMES]

/-- C3 (amended): the three configured scene durations alone
(8 s + 34 s + 8 s = 50 s) sum to the registered composition duration
(1500 frames at 30 fps); adding the two 1 s transition durations overshoots
it by `2 * fps` frames. -/
theorem scene_durations_sum (fps : ℚ) :
    introSceneDuration fps + showcaseDuration fps + outroDuration fps = 50 * fps ∧
    introSceneDuration VIDEO_FPS + showcaseDuration VIDEO_FPS + outroDuration VIDEO_FPS =
      VIDEO_DURATION_IN_FRAMES ∧
    introSceneDuration fps + showcaseDuration fps + outroDuration fps +
        transitionDuration fps + transitionDuration fps = 50 * fps + 2 * fps := by
  refine ⟨by unfold introSceneDuration showcaseDuration outroDuration; ring, ?_,
    by unfold introSceneDuration showcaseDuration outroDuration transitionDuration; ring⟩
  norm_num [introSceneDuration, showcaseDuration, outroDuration, VIDEO_FPS,
    VIDEO_DURATION_IN_FRAMES]

/-- C4: every duration-normalised entrance spring used by the composers
(any fps, any damping/stiffness/mass config, any positive
`durationInFrames`) has settled at the target by the end of its window:
for every frame ≥ `durationInFrames` past the start, the progress equals 1
(hence lies within every epsilon tolerance of 1); in particular at 30 fps
with `durationInFrames = 60` the progress is 1 at frame 60. -/
theorem spring_settles (frame fps dur : ℚ) (cfg : SpringConfig)
    (hdur : 0 < dur) (hframe : dur ≤ frame) :
    springModel frame fps cfg dur = 1 := by
  unfold springModel
  have h1 : (1:ℚ) ≤ frame / dur := (le_div_iff₀ hdur).mpr (by linarith)
  rw [if_neg (by push_neg; linarith), if_neg (by push_neg; linarith)]

/-- C4 witness: at 30 fps a spring with `durationInFrames = 60` has
progress 1 at frame 60. -/
theorem spring_settles_witness :
    (0:ℚ) < 60 ∧ (60:ℚ) ≤ 60 ∧ springModel 60 30 ⟨100, none, none⟩ 60 = 1 :=
  ⟨by norm_num, le_refl 60,
    spring_settles 60 30 60 ⟨100, none, none⟩ (by norm_num) (le_refl 60)⟩

/-- C5: for every frame strictly before an entrance spring start, the raw
spring output is ≤ 0, so the clamp `Math.max(0, spring(...))` yields
exactly 0; in particular the IntroScene tagline and the OutroScene
call-to-action (both starting at `1 * fps`) have opacity 0 before their
start. -/
theorem spring_prestart_clamped (fps frame start dur : ℚ) (cfg : SpringConfig)
    (hdur : 0 < dur) (hframe : frame < start) :
    springModel (frame - start) fps cfg dur ≤ 0 ∧
    max 0 (springModel (frame - start) fps cfg dur) = 0 ∧
    (0 < fps → frame < fps →
      taglineOpacity fps frame = 0 ∧ ctaOpacity fps frame = 0) := by
  have h1 := springModel_nonpos (frame - start) fps dur cfg hdur (by linarith)
  refine ⟨h1, max_eq_left h1, ?_⟩
  intro hfps hlt
  have hd15 : (0:ℚ) < 1.5 * fps := by linarith
  have h2 := springModel_nonpos (frame - 1 * fps) fps (1.5 * fps)
    ⟨200, none, none⟩ hd15 (by linarith)
  exact ⟨max_eq_left h2, max_eq_left h2⟩

/-- C5 witness: at 30 fps, frame 20 is before a spring starting at frame
30; its clamped progress and the tagline opacity are 0. -/
theorem spring_prestart_clamped_witness :
    (0:ℚ) < 45 ∧ (20:ℚ) < 30 ∧
      max 0 (springModel (20 - 30) 30 ⟨200, none, none⟩ 45) = 0 ∧
      taglineOpacity 30 20 = 0 :=
  ⟨by norm_num, by norm_num,
    (spring_prestart_clamped 30 20 30 45 ⟨200, none, none⟩ (by norm_num)
      (by norm_num)).2.1,
    ((spring_prestart_clamped 30 20 30 45 ⟨200, none, none⟩ (by norm_num)
      (by norm_num)).2.2 (by norm_num) (by norm_num)).1⟩

/-- C6: piecewise-linear interpolation over an arbitrary strictly
increasing breakpoint list (parallel output list, length ≥ 2) exactly
reproduces the literal output value at every breakpoint input, evaluates
to plain linear interpolation inside every segment — hence is monotone
within any segment whose output values are monotone, in either direction —
and obeys the edge policy: clamp holds the boundary output value on both
sides, while extend continues the linear slope of the nearest (first or
last) segment. -/
theorem interpolate_piecewise_spec (xs ys : List ℚ)
    (hlen : ys.length = xs.length) (hlen2 : 2 ≤ xs.length)
    (hsorted : List.Chain' (fun a b : ℚ => a < b) xs) :
    (∀ (k : ℕ) (xk yk : ℚ) (opts : InterpolateOptions),
      xs[k]? = some xk → ys[k]? = some yk →
      interpolate xk xs ys opts = yk) ∧
    (∀ (k : ℕ) (xk xk1 yk yk1 x : ℚ) (opts : InterpolateOptions),
      xs[k]? = some xk → xs[k + 1]? = some xk1 →
      ys[k]? = some yk → ys[k + 1]? = some yk1 →
      xk ≤ x → x ≤ xk1 →
      interpolate x xs ys opts = lerpSegment xk yk xk1 yk1 x) ∧
    (∀ (k : ℕ) (xk xk1 yk yk1 a b : ℚ) (opts : InterpolateOptions),
      xs[k]? = some xk → xs[k + 1]? = some xk1 →
      ys[k]? = some yk → ys[k + 1]? = some yk1 →
      xk ≤ a → a ≤ b → b ≤ xk1 → yk ≤ yk1 →
      interpolate a xs ys opts ≤ interpolate b xs ys opts) ∧
    (∀ (k : ℕ) (xk xk1 yk yk1 a b : ℚ) (opts : InterpolateOptions),
      xs[k]? = some xk → xs[k + 1]? = some xk1 →
      ys[k]? = some yk → ys[k + 1]? = some yk1 →
      xk ≤ a → a ≤ b → b ≤ xk1 → yk1 ≤ yk →
      interpolate b xs ys opts ≤ interpolate a xs ys opts) ∧
    (∀ (x0 y0 : ℚ), xs[0]? = some x0 → ys[0]? = some y0 →
      ∀ x, x < x0 → interpolate x xs ys clampBoth = y0) ∧
    (∀ (x0 x1 y0 y1 : ℚ), xs[0]? = some x0 → xs[1]? = some x1 →
      ys[0]? = some y0 → ys[1]? = some y1 →
      ∀ x, x < x0 → interpolate x xs ys extendBoth = lerpSegment x0 y0 x1 y1 x) ∧
    (∀ (k : ℕ) (xk xk1 yk yk1 : ℚ), xs.length = k + 2 →
      xs[k]? = some xk → xs[k + 1]? = some xk1 →
      ys[k]? = some yk → ys[k + 1]? = some yk1 →
      ∀ x, xk1 < x →
      interpolate x xs ys clampBoth = yk1 ∧
      interpolate x xs ys extendBoth = lerpSegment xk yk xk1 yk1 x) := by
  cases xs with
  | nil => norm_num at hlen2
  | cons x0 xs0 =>
  cases xs0 with
  | nil => norm_num at hlen2
  | cons x1 xs' =>
  cases ys with
  | nil => simp at hlen
  | cons y0 ys0 =>
  cases ys0 with
  | nil => simp at hlen
  | cons y1 ys' =>
  have hch : List.Chain' (fun p r : ℚ × ℚ => p.1 < r.1)
      ((x0, y0) :: (x1, y1) :: (xs'.zip ys')) := by
    have h := zip_chain_fst (x0 :: x1 :: xs') (y0 :: y1 :: ys') hsorted
    rw [List.zip_cons_cons, List.zip_cons_cons] at h
    exact h
  have hz : ∀ (k : ℕ) (xk yk : ℚ),
      (x0 :: x1 :: xs')[k]? = some xk → (y0 :: y1 :: ys')[k]? = some yk →
      ((x0, y0) :: (x1, y1) :: (xs'.zip ys'))[k]? = some (xk, yk) := by
    intro k xk yk hx hy
    have h := zip_getElem_some (x0 :: x1 :: xs') (y0 :: y1 :: ys') k xk yk hx hy
    rw [List.zip_cons_cons, List.zip_cons_cons] at h
    exact h
  have hseg : ∀ (k : ℕ) (xk xk1 yk yk1 x : ℚ) (opts : InterpolateOptions),
      (x0 :: x1 :: xs')[k]? = some xk → (x0 :: x1 :: xs')[k + 1]? = some xk1 →
      (y0 :: y1 :: ys')[k]? = some yk → (y0 :: y1 :: ys')[k + 1]? = some yk1 →
      xk ≤ x → x ≤ xk1 →
      interpolate x (x0 :: x1 :: xs') (y0 :: y1 :: ys') opts =
        lerpSegment xk yk xk1 yk1 x := by
    intro k xk xk1 yk yk1 x opts hxk hxk1 hyk hyk1 h1 h2
    exact interpolatePoints_segment opts x (xs'.zip ys') (x0, y0) (x1, y1) hch
      k (xk, yk) (xk1, yk1) (hz k xk yk hxk hyk) (hz (k + 1) xk1 yk1 hxk1 hyk1) h1 h2
  refine ⟨?_, hseg, ?_, ?_, ?_, ?_, ?_⟩
  · intro k xk yk opts hx hy
    exact interpolatePoints_at_breakpoint opts (xs'.zip ys') (x0, y0) (x1, y1) hch
      k (xk, yk) (hz k xk yk hx hy)
  · intro k xk xk1 yk yk1 a b opts hxk hxk1 hyk hyk1 ha hab hb hy
    rw [hseg k xk xk1 yk yk1 a opts hxk hxk1 hyk hyk1 ha (le_trans hab hb),
      hseg k xk xk1 yk yk1 b opts hxk hxk1 hyk hyk1 (le_trans ha hab) hb]
    exact lerpSegment_mono xk yk xk1 yk1 a b
      (chain_lt_of_consecutive (x0 :: x1 :: xs') hsorted k xk xk1 hxk hxk1) hy hab
  · intro k xk xk1 yk yk1 a b opts hxk hxk1 hyk hyk1 ha hab hb hy
    rw [hseg k xk xk1 yk yk1 a opts hxk hxk1 hyk hyk1 ha (le_trans hab hb),
      hseg k xk xk1 yk yk1 b opts hxk hxk1 hyk hyk1 (le_trans ha hab) hb]
    exact lerpSegment_anti xk yk xk1 yk1 a b
      (chain_lt_of_consecutive (x0 :: x1 :: xs') hsorted k xk xk1 hxk hxk1) hy hab
  · intro xh yh hx hy x hlt
    rw [List.getElem?_cons_zero, Option.some_inj] at hx hy
    subst hx; subst hy
    exact interpolatePoints_before_first .clamp .clamp x (xs'.zip ys')
      (x0, y0) (x1, y1) hch hlt
  · intro xh xh1 yh yh1 hx hx1 hy hy1 x hlt
    rw [List.getElem?_cons_zero, Option.some_inj] at hx hy
    rw [List.getElem?_cons_succ, List.getElem?_cons_zero, Option.some_inj] at hx1 hy1
    subst hx; subst hy; subst hx1; subst hy1
    exact interpolatePoints_before_first .extend .extend x (xs'.zip ys')
      (x0, y0) (x1, y1) hch hlt
  · intro k xk xk1 yk yk1 hlenk hxk hxk1 hyk hyk1 x hlt
    have hplen : ((x0, y0) :: (x1, y1) :: (xs'.zip ys')).length = k + 2 := by
      simp at hlenk hlen ⊢
      omega
    constructor
    · exact interpolatePoints_after_last .clamp .clamp x (xs'.zip ys')
        (x0, y0) (x1, y1) hch k (xk, yk) (xk1, yk1) hplen
        (hz k xk yk hxk hyk) (hz (k + 1) xk1 yk1 hxk1 hyk1) hlt
    · exact interpolatePoints_after_last .extend .extend x (xs'.zip ys')
        (x0, y0) (x1, y1) hch k (xk, yk) (xk1, yk1) hplen
        (hz k xk yk hxk hyk) (hz (k + 1) xk1 yk1 hxk1 hyk1) hlt

/-- C6 witness: on the three-breakpoint ranges `[0, 30, 60] → [0, 1, 3]`,
interpolation reproduces the literal output 1 at the interior breakpoint
30, and clamps to the last output 3 beyond the range at 100. -/
theorem interpolate_piecewise_spec_witness :
    ([(0:ℚ), 30, 60].length = 3 ∧ [(0:ℚ), 1, 3].length = 3 ∧
      List.Chain' (fun a b : ℚ => a < b) [0, 30, 60]) ∧
    interpolate 30 [(0:ℚ), 30, 60] [0, 1, 3] clampBoth = 1 ∧
    interpolate 100 [(0:ℚ), 30, 60] [0, 1, 3] clampBoth = 3 :=
  ⟨⟨rfl, rfl, by norm_num [List.chain'_cons, List.chain'_singleton]⟩,
    (interpolate_piecewise_spec [0, 30, 60] [0, 1, 3] rfl (by norm_num)
      (by norm_num [List.chain'_cons, List.chain'_singleton])).1 1 30 1 clampBoth rfl rfl,
    ((interpolate_piecewise_spec [0, 30, 60] [0, 1, 3] rfl (by norm_num)
      (by norm_num [List.chain'_cons, List.chain'_singleton])).2.2.2.2.2.2 1 30 60 1 3
        rfl rfl rfl rfl rfl 100 (by norm_num)).1⟩

/-- C9: per-item staggering is a pure clock shift: the delay of feature
item `i` is the delay of item 0 plus `i * 2` seconds, the clamped progress
of feature item `i` at a frame equals the clamped progress of item 0 at the
frame shifted back by `i * 2` seconds, and the whole rendered output of
showcase slide `i` at a frame equals the output of slide 0 at the frame
shifted back by `i * slideDuration`. -/
theorem stagger_clock_shift (fps frame : ℚ) (i : ℕ) :
    featureDelay fps i = featureDelay fps 0 + ((i : ℚ) * 2) * fps ∧
    featureItemProgress fps frame i =
      featureItemProgress fps (frame - ((i : ℚ) * 2) * fps) 0 ∧
    textSlide fps i frame = textSlide fps 0 (frame - (i : ℚ) * slideDuration fps) := by
  refine ⟨?_, ?_, ?_⟩
  · unfold featureDelay
    push_cast
    ring
  · unfold featureItemProgress featureItemSpring featureDelay
    push_cast
    rw [show frame - (1.5 + (i : ℚ) * 2) * fps =
      frame - (i : ℚ) * 2 * fps - (1.5 + 0 * 2) * fps by ring]
  · have hact : textSlideIsActive fps i frame =
        textSlideIsActive fps 0 (frame - (i : ℚ) * slideDuration fps) := by
      unfold textSlideIsActive
      push_cast
      congr 1
      · rw [decide_eq_decide]
        constructor <;> intro h <;> linarith
      · rw [decide_eq_decide]
        constructor <;> intro h <;> linarith
    unfold textSlide
    rw [hact]
    by_cases h : textSlideIsActive fps 0 (frame - (i : ℚ) * slideDuration fps) = true
    · rw [h]
      simp only [if_true]
      push_cast
      rw [show frame - (i : ℚ) * slideDuration fps - 0 * slideDuration fps =
        frame - (i : ℚ) * slideDuration fps by ring]
    · rw [Bool.not_eq_true] at h
      rw [h]
      simp only [Bool.false_eq_true, if_false]

/-! ## Particle generator lemmas -/

/-- The seeded generator always lands in the half-open unit interval: the
fractional part of the scaled sine transform is ≥ 0 and < 1. -/
lemma seededRandom_mem (seed : ℝ) :
    0 ≤ seededRandom seed ∧ seededRandom seed < 1 := by
  have h : seededRandom seed = Int.fract (Real.sin (seed * 9999) * 10000) := rfl
  rw [h]
  exact ⟨Int.fract_nonneg _, Int.fract_lt_one _⟩

/-- Indexing into the generated particle list yields the per-index record. -/
lemma generateParticles_getElem (count i : ℕ) (h : i < count) :
    (generateParticles count)[i]? = some (generateParticle i) := by
  unfold generateParticles
  rw [List.getElem?_map, List.getElem?_range h]
  rfl

/-- C8: for every numeric seed, `seededRandom(seed)` lies in the half-open
interval `[0, 1)`: the fractional part `x - floor(x)` of the scaled sine
transform is always ≥ 0 and < 1. -/
theorem seededRandom_in_unit_interval (seed : ℝ) :
    seededRandom seed ∈ Set.Ico (0 : ℝ) 1 :=
  ⟨(seededRandom_mem seed).1, (seededRandom_mem seed).2⟩

/-- C7: particle generation is deterministic: the record at index `i`
depends only on `i` (via the pure `seededRandom` of the fixed per-index
seeds), so two invocations of `generateParticles` — with the same or
different counts — produce identical attribute records at every shared
index. -/
theorem generateParticles_deterministic (c₁ c₂ i : ℕ) (h₁ : i < c₁) (h₂ : i < c₂) :
    (generateParticles c₁)[i]? = (generateParticles c₂)[i]? ∧
    (generateParticles c₁)[i]? = some (generateParticle i) := by
  rw [generateParticles_getElem c₁ i h₁, generateParticles_getElem c₂ i h₂]
  exact ⟨rfl, rfl⟩

/-- C7 witness: index 2 of a 5-particle list and of a 9-particle list hold
the identical record. -/
theorem generateParticles_deterministic_witness :
    2 < 5 ∧ 2 < 9 ∧ (generateParticles 5)[2]? = (generateParticles 9)[2]? :=
  ⟨by norm_num, by norm_num,
    (generateParticles_deterministic 5 9 2 (by norm_num) (by norm_num)).1⟩

/-- C10: every generated particle has its attributes in the fixed ranges
`x ∈ [0, 100)`, `y ∈ [40, 120)`, `size ∈ [2, 6)`, `speed ∈ [0.5, 2)`,
`delay ∈ [0, 90)`, `twinkleSpeed ∈ [0.5, 2)` and `twinklePhase ∈ [0, 2π)`:
particles start at or below the lower 60% of the screen, are at most 6 px,
and begin within the first 90 frames. -/
theorem generateParticles_attribute_bounds (count i : ℕ) (h : i < count) :
    (generateParticles count)[i]? = some (generateParticle i) ∧
    0 ≤ (generateParticle i).x ∧ (generateParticle i).x < 100 ∧
    40 ≤ (generateParticle i).y ∧ (generateParticle i).y < 120 ∧
    2 ≤ (generateParticle i).size ∧ (generateParticle i).size < 6 ∧
    1 / 2 ≤ (generateParticle i).speed ∧ (generateParticle i).speed < 2 ∧
    0 ≤ (generateParticle i).delay ∧ (generateParticle i).delay < 90 ∧
    1 / 2 ≤ (generateParticle i).twinkleSpeed ∧ (generateParticle i).twinkleSpeed < 2 ∧
    0 ≤ (generateParticle i).twinklePhase ∧
      (generateParticle i).twinklePhase < 2 * Real.pi := by
  obtain ⟨hx0, hx1⟩ := seededRandom_mem ((i : ℝ) * 1.1)
  obtain ⟨hy0, hy1⟩ := seededRandom_mem ((i : ℝ) * 2.2)
  obtain ⟨hs0, hs1⟩ := seededRandom_mem ((i : ℝ) * 3.3)
  obtain ⟨hv0, hv1⟩ := seededRandom_mem ((i : ℝ) * 4.4)
  obtain ⟨hd0, hd1⟩ := seededRandom_mem ((i : ℝ) * 5.5)
  obtain ⟨ht0, ht1⟩ := seededRandom_mem ((i : ℝ) * 6.6)
  obtain ⟨hp0, hp1⟩ := seededRandom_mem ((i : ℝ) * 7.7)
  have hpi := Real.pi_pos
  refine ⟨generateParticles_getElem count i h, ?_, ?_, ?_, ?_, ?_, ?_, ?_, ?_, ?_,
    ?_, ?_, ?_, ?_, ?_⟩ <;>
    simp only [generateParticle]
  · linarith
  · linarith
  · linarith
  · linarith
  · linarith
  · linarith
  · linarith
  · linarith
  · linarith
  · linarith
  · linarith
  · linarith
  · positivity
  · nlinarith [hp0, hp1, hpi]

/-- C10 witness: the particle at index 0 of a 1-particle list has its
horizontal position in `[0, 100)`. -/
theorem generateParticles_attribute_bounds_witness :
    0 < 1 ∧ 0 ≤ (generateParticle 0).x ∧ (generateParticle 0).x < 100 :=
  ⟨by norm_num, (generateParticles_attribute_bounds 1 0 (by norm_num)).2.1,
    (generateParticles_attribute_bounds 1 0 (by norm_num)).2.2.1⟩

end ParfumSara
